import Mathlib

/-!
Shallow embedding of the file-organizer core (`organizer/rules.py`,
`organizer/organizer.py`, `utils.py`).

Modelling conventions:
* A filesystem path is its resolved list of segments (`Path := List String`);
  `Path.resolve` of the Python code is the identity on this canonical form.
* The filesystem is the list of currently-existing paths (files and
  directories alike), since the code only queries `Path.exists()`.
* `mimetypes.guess_type` and `Path.match` (glob matching) are external
  library calls; they are passed as function parameters `gm` and `glm`.
* A file's modification timestamp is modelled by the local-time date it
  converts to (`datetime.fromtimestamp`), which is all `date_parts` reads.
* Whether `os.link` succeeds on this filesystem is the parameter `lk`
  (hardlink support); on failure the code falls back to `shutil.copy2`.
* Python counter formatting `f"{stem}({i}){suffix}"` is modelled by
  `natToStr`, the usual decimal rendering of a natural number.
-/

namespace Organizer

abbrev Path := List String

/-- Decimal digits of a natural number, accumulator style, mirroring the
fuel-based structure of `Nat.toDigits` so that it reduces by `decide`. -/
def natDigitsAux : Nat → Nat → List Char → List Char
  | 0, _, acc => acc
  | fuel+1, n, acc =>
    let d := Char.ofNat (48 + n % 10)
    if n / 10 = 0 then d :: acc else natDigitsAux fuel (n / 10) (d :: acc)

/-- Decimal string of a natural number (Python `str(i)`). -/
def natToStr (n : Nat) : String := ⟨natDigitsAux (n + 1) n []⟩

/-- Index of the last `'.'` in a character list, if any. -/
def lastDotIdx (cs : List Char) : Option Nat :=
  (List.range cs.length).foldl
    (fun acc i => if cs.get? i = some '.' then some i else acc) none

/-- Python `pathlib` suffix of a file name: the part from the last dot,
provided that dot is neither leading nor trailing; otherwise `""`. -/
def pySuffix (name : String) : String :=
  let cs := name.data
  match lastDotIdx cs with
  | some i => if 0 < i ∧ i + 1 < cs.length then ⟨cs.drop i⟩ else ""
  | none => ""

/-- Python `pathlib` stem of a file name: everything before the suffix. -/
def pyStem (name : String) : String :=
  let cs := name.data
  match lastDotIdx cs with
  | some i => if 0 < i ∧ i + 1 < cs.length then ⟨cs.take i⟩ else name
  | none => name

/-- Final segment of a path (the file name); `""` for the empty path. -/
def pathName (p : Path) : String := p.getLastD ""

/-- All segments but the last (Python `path.parent`). -/
def parentOf (p : Path) : Path := p.dropLast

/-- Boolean test that the first character list is an initial segment of the
second. -/
def charsLead : List Char → List Char → Bool
  | [], _ => true
  | _ :: _, [] => false
  | a :: as, b :: bs => a == b && charsLead as bs

/-- Python `str.startswith`: `pre` is an initial segment of `s`. -/
def strLeads (pre s : String) : Bool := charsLead pre.data s.data

/-- ASCII lowering of one character (the effect of Python `str.lower` on the
ASCII extension strings the rules use). -/
def lowerChar (c : Char) : Char :=
  if 65 ≤ c.toNat ∧ c.toNat ≤ 90 then Char.ofNat (c.toNat + 32) else c

/-- Python `str.lower` on ASCII strings. -/
def strLower (s : String) : String := ⟨s.data.map lowerChar⟩

/-- Boolean test that the first segment list is an initial segment of the
second. -/
def segsLead : List String → List String → Bool
  | [], _ => true
  | _ :: _, [] => false
  | a :: as, b :: bs => a == b && segsLead as bs

/-- `utils.within_dir(child, parent)`: `child.resolve().relative_to(parent.resolve())`
succeeds exactly when the (resolved) parent segments lead the child's. -/
def within_dir (child parent : Path) : Bool := segsLead parent child

/-- The filesystem: the list of currently existing paths. -/
structure FS where
  ex : List Path
deriving DecidableEq, Repr

/-- `p.exists()` on this filesystem. -/
def FS.has (fs : FS) (p : Path) : Bool := decide (p ∈ fs.ex)

/-- Creation of a file or link at `p`. -/
def FS.add (fs : FS) (p : Path) : FS := ⟨p :: fs.ex⟩

/-- Removal of the entry at `p` (the source side of a move). -/
def FS.remove (fs : FS) (p : Path) : FS := ⟨fs.ex.filter (fun q => decide (q ≠ p))⟩

/-- The nonempty prefixes of a path: the directory and all its ancestors. -/
def ancestorsOf (p : Path) : List Path :=
  (List.range p.length).map (fun i => p.take (i + 1))

/-- `utils.ensure_dir`: `mkdir(parents=True, exist_ok=True)` brings the
directory and every ancestor into existence. -/
def FS.ensureDir (fs : FS) (p : Path) : FS := ⟨ancestorsOf p ++ fs.ex⟩

/-- The `i`-th conflict candidate `parent / f"{stem}({i}){suffix}"` from
`utils.next_nonconflicting_name`. -/
def conflictName (dst : Path) (i : Nat) : Path :=
  parentOf dst ++ [pyStem (pathName dst) ++ "(" ++ natToStr i ++ ")" ++ pySuffix (pathName dst)]

/-- The unbounded `while True` search of `utils.next_nonconflicting_name`,
given enough fuel: first counter `≥ i` whose candidate does not exist. -/
def findFree (fs : FS) (dst : Path) : Nat → Nat → Nat
  | 0, i => i
  | fuel+1, i => if fs.has (conflictName dst i) then findFree fs dst fuel (i + 1) else i

/-- `utils.next_nonconflicting_name`. Fuel `fs.ex.length + 1` always suffices
(pigeonhole over the distinct candidates), so this equals the Python loop. -/
def next_nonconflicting_name (fs : FS) (dst : Path) : Path :=
  if fs.has dst then conflictName dst (findFree fs dst (fs.ex.length + 1) 1) else dst

/-- `rules.DateRule`. -/
structure DateRule where
  enabled : Bool
  base_folder : String
  group : String
deriving DecidableEq, Repr

/-- `rules.DuplicateRule`. -/
structure DuplicateRule where
  action : String
  folder : String
deriving DecidableEq, Repr

/-- One entry of `rules.size_buckets`: a JSON object with optional keys
`max_mb` (a number, modelled as a rational) and `folder`. -/
structure Bucket where
  max_mb : Option ℚ
  folder : Option String
deriving DecidableEq, Repr

/-- `rules.Rules`. The Python dicts `by_extension`, `by_glob`, `by_mime`
preserve insertion order and are read by first-match iteration, so they are
association lists here. -/
structure Rules where
  unknown_folder : String
  exclude_dirs : List String
  exclude_hidden : Bool
  prefer_extension_over_glob : Bool
  by_extension : List (String × String)
  by_glob : List (String × String)
  by_mime : List (String × String)
  by_date : DateRule
  size_buckets : List Bucket
  duplicates : DuplicateRule
deriving DecidableEq, Repr

/-- `Rules.match_folder_for`. `gm` models `mimetypes.guess_type` (its first
component) on the file's posix path; `glm` models `path.match(pattern)`. -/
def match_folder_for (r : Rules) (gm : Path → Option String)
    (glm : String → Path → Bool) (p : Path) : Option String :=
  match r.by_extension.lookup (strLower (pySuffix (pathName p))) with
  | some folder => some folder
  | none =>
    match r.by_glob.find? (fun pr => glm pr.1 p) with
    | some pr => some pr.2
    | none =>
      match gm p with
      | some mime =>
        match r.by_mime.find? (fun pr => strLeads pr.1 mime) with
        | some pr => some pr.2
        | none => none
      | none => none

/-- The match test of one size bucket: catch-all when `max_mb` is absent,
otherwise `size_bytes / (1024*1024) <= float(max_mb)` (exact rational
arithmetic; the Python float computation agrees for all sizes below 2^53). -/
def bucketMatches (b : Bucket) (size : Nat) : Bool :=
  match b.max_mb with
  | none => true
  | some m => decide ((size : ℚ) / 1048576 ≤ m)

/-- The bucket loop of `Rules.match_size_bucket`: entries without a `folder`
are skipped, otherwise the first matching bucket's folder is returned. -/
def matchBucketGo (size : Nat) : List Bucket → Option String
  | [] => none
  | b :: rest =>
    match b.folder with
    | none => matchBucketGo size rest
    | some fld => if bucketMatches b size then some fld else matchBucketGo size rest

/-- `Rules.match_size_bucket`. -/
def match_size_bucket (r : Rules) (size : Nat) : Option String :=
  if r.size_buckets.isEmpty then none else matchBucketGo size r.size_buckets

/-- Date of a file's modification timestamp in local time. -/
structure Date where
  year : Nat
  month : Nat
  day : Nat
deriving DecidableEq, Repr

/-- Python `f"{n:0wd}"`: decimal rendering left-padded with zeros to width `w`. -/
def padNum (w n : Nat) : String :=
  ⟨List.replicate (w - (natToStr n).data.length) '0' ++ (natToStr n).data⟩

/-- `Rules.date_parts` on the local date of the timestamp. -/
def date_parts (r : Rules) (d : Date) : List String :=
  if r.by_date.group = "year" then [padNum 4 d.year]
  else if r.by_date.group = "day" then [padNum 4 d.year, padNum 2 d.month, padNum 2 d.day]
  else [padNum 4 d.year, padNum 2 d.month]

/-- A regular file met during the walk: its path, `stat().st_size`,
local date of `stat().st_mtime`, and `hash_file` content digest. -/
structure FileInfo where
  path : Path
  size : Nat
  mtime : Date
  hash : String
deriving DecidableEq, Repr

/-- The classification folder actually used by `compute_destination`:
`folder = rules.match_folder_for(path); if not folder: folder = rules.unknown_folder`
(Python falsiness: both `None` and `""` fall back). -/
def classification_folder (r : Rules) (gm : Path → Option String)
    (glm : String → Path → Bool) (p : Path) : String :=
  match match_folder_for r gm glm p with
  | some s => if s = "" then r.unknown_folder else s
  | none => r.unknown_folder

/-- `organizer.compute_destination`. -/
def compute_destination (f : FileInfo) (dest_root : Path) (r : Rules)
    (gm : Path → Option String) (glm : String → Path → Bool) : Path :=
  let folder := classification_folder r gm glm f.path
  let parts := [folder]
  let parts := if r.by_date.enabled then r.by_date.base_folder :: (date_parts r f.mtime ++ parts) else parts
  let parts :=
    match match_size_bucket r f.size with
    | some sb => if sb = "" then parts else sb :: parts
    | none => parts
  (dest_root ++ parts) ++ [pathName f.path]

/-- Destination path as the spec words it: destRoot, then the matching
size-bucket folder if any bucket matches, then the date base folder and date
segments if the date rule is enabled, then the classification folder (the
rule-resolution result, or the unknown folder when no rule matches), then the
file's original name. -/
def specDestination (f : FileInfo) (dest_root : Path) (r : Rules)
    (gm : Path → Option String) (glm : String → Path → Bool) : Path :=
  let classification :=
    match match_folder_for r gm glm f.path with
    | some s => s
    | none => r.unknown_folder
  let sizeSeg : List String :=
    match match_size_bucket r f.size with
    | some s => [s]
    | none => []
  let dateSegs : List String :=
    if r.by_date.enabled then r.by_date.base_folder :: date_parts r f.mtime else []
  dest_root ++ sizeSeg ++ dateSegs ++ [classification] ++ [pathName f.path]

/-- `utils.MoveResult`. The empty path stands for the `""` destination the
code records on skipped duplicates. -/
structure MoveResult where
  src : Path
  dst : Path
  action : String
deriving DecidableEq, Repr

/-- The exceptions raised by the core: `FileNotFoundError` and `RuntimeError`. -/
inductive OrgError where
  | notFound (msg : String)
  | runtime (msg : String)
deriving DecidableEq, Repr

/-- Action string reported by `utils.safe_link_or_copy` for a requested mode;
`lk` says whether `os.link` succeeds (else the hardlink falls back to copy).
Any mode other than `"hardlink"`/`"copy"` takes the `shutil.move` branch. -/
def placementAction (mode : String) (lk : Bool) : String :=
  if mode = "hardlink" then (if lk then "hardlink" else "copy")
  else if mode = "copy" then "copy"
  else "move"

/-- `utils.safe_link_or_copy`: re-resolves the conflict name, then links,
copies, or moves; returns the action string and the updated filesystem. -/
def safe_link_or_copy (fs : FS) (src dst : Path) (mode : String) (lk : Bool) :
    String × FS :=
  let d := next_nonconflicting_name fs dst
  if mode = "hardlink" then
    (if lk then ("hardlink", fs.add d) else ("copy", fs.add d))
  else if mode = "copy" then ("copy", fs.add d)
  else ("move", (fs.remove src).add d)

/-- The planned-action string of the dry-run branch of `organize`. -/
def planAction (mode : String) : String :=
  if mode = "move" then "plan-move"
  else if mode = "copy" then "plan-copy"
  else "plan-hardlink"

/-- State threaded through the per-file loop of `organize`: the filesystem,
the `seen_hashes` dict (newest binding first, as Python assignment
overwrites), and the accumulated results. -/
structure OrgState where
  fs : FS
  seen : List (String × Path)
  results : List MoveResult
deriving Repr

/-- Tail of the per-file loop after the duplicate-policy branch: conflict
naming, then either the dry-run record or directory creation and placement.
`seen'` is the `seen_hashes` dict after `seen_hashes[file_hash] = f`. -/
def placeFile (r : Rules) (mode : String) (dryRun : Bool) (lk : Bool)
    (st : OrgState) (f : FileInfo) (seen' : List (String × Path)) (dst : Path) :
    OrgState :=
  let final_dst := next_nonconflicting_name st.fs dst
  if dryRun then
    { fs := st.fs, seen := seen',
      results := st.results ++ [⟨f.path, final_dst, planAction mode⟩] }
  else
    let fs1 := st.fs.ensureDir (parentOf final_dst)
    let pr := safe_link_or_copy fs1 f.path final_dst
      (if r.duplicates.action = "hardlink" then "hardlink" else mode) lk
    { fs := pr.2, seen := seen',
      results := st.results ++ [⟨f.path, final_dst, pr.1⟩] }

/-- One iteration of the per-file loop of `organize`. -/
def processFile (r : Rules) (destRoot : Path) (mode : String) (dryRun : Bool)
    (gm : Path → Option String) (glm : String → Path → Bool) (lk : Bool)
    (st : OrgState) (f : FileInfo) : OrgState :=
  match st.seen.lookup f.hash with
  | some firstP =>
    if r.duplicates.action = "skip" then
      { st with results := st.results ++ [⟨f.path, [], "skip-duplicate"⟩] }
    else
      placeFile r mode dryRun lk st f ((f.hash, f.path) :: st.seen)
        (if r.duplicates.action = "separate" then
          destRoot ++ [r.duplicates.folder, pathName f.path]
        else if r.duplicates.action = "hardlink" then
          destRoot ++ [r.duplicates.folder, pathName firstP]
        else compute_destination f destRoot r gm glm)
  | none =>
    placeFile r mode dryRun lk st f ((f.hash, f.path) :: st.seen)
      (compute_destination f destRoot r gm glm)

/-- `organizer.organize`. `files` is the sequence of regular files the
pruned `os.walk` yields; validation errors leave the filesystem untouched.
The success value carries the result list and, when an undo manifest was
written, its serialized operations. -/
def organize (fs0 : FS) (src dest : Path) (r : Rules) (mode : String)
    (dryRun : Bool) (undoManifest : Option Path) (files : List FileInfo)
    (gm : Path → Option String) (glm : String → Path → Bool) (lk : Bool) :
    Except OrgError (List MoveResult × Option (List MoveResult)) × FS :=
  if fs0.has src = false then
    (.error (.notFound "Source folder not found"), fs0)
  else if within_dir dest src then
    (.error (.runtime "Destination directory cannot be inside the source directory."), fs0)
  else if src = dest then
    (.error (.runtime "Destination must differ from source."), fs0)
  else
    let st := files.foldl (processFile r dest mode dryRun gm glm lk) ⟨fs0, [], []⟩
    match undoManifest with
    | some mp =>
      if dryRun then (.ok (st.results, none), st.fs)
      else
        (.ok (st.results, some (st.results.filter (fun rec =>
            rec.action == "move" || rec.action == "copy" || rec.action == "hardlink"))),
          (st.fs.ensureDir (parentOf mp)).add mp)
    | none => (.ok (st.results, none), st.fs)

/-- One iteration of the undo loop: the recorded destination is the
undo-source; a missing undo-source is skipped, otherwise the file is moved
back to a non-conflicting name at the recorded source. -/
def undoStep (st : FS × List MoveResult) (rec : MoveResult) : FS × List MoveResult :=
  let src := rec.dst
  let dst := rec.src
  if st.1.has src = false then st
  else
    let fs1 := st.1.ensureDir (parentOf dst)
    let final_dst := next_nonconflicting_name fs1 dst
    ((fs1.remove src).add final_dst, st.2 ++ [⟨src, final_dst, "undo"⟩])

/-- `organizer.undo`. `manifest` is `none` when the manifest file does not
exist, otherwise the parsed operation list; operations are replayed in
reverse (LIFO) order. -/
def undo (fs : FS) (manifest : Option (List MoveResult)) :
    Except OrgError (List MoveResult × FS) :=
  match manifest with
  | none => .error (.notFound "Undo manifest not found")
  | some ops =>
    let t := ops.reverse.foldl undoStep (fs, [])
    .ok (t.2, t.1)

/-- Configuration of the spec's photo scenario: `{by_extension: {".jpg": "Images"},
by_date: {enabled: true, group: "month"}}`, all other keys at their defaults. -/
def photoRules : Rules :=
  { unknown_folder := "Others", exclude_dirs := [".git", "__pycache__", "node_modules"],
    exclude_hidden := true, prefer_extension_over_glob := true,
    by_extension := [(".jpg", "Images")], by_glob := [], by_mime := [],
    by_date := ⟨true, "By Date", "month"⟩, size_buckets := [],
    duplicates := ⟨"separate", "Duplicates"⟩ }

/-- The photo of the spec's scenario: `photo.jpg` with a 2025-06-01 mtime. -/
def photoFile : FileInfo := ⟨["src", "photo.jpg"], 100, ⟨2025, 6, 1⟩, "h0"⟩

/-- A configuration with no classification rules and a hardlink duplicate
policy with folder `Dupes`. -/
def dupRules : Rules :=
  { unknown_folder := "Others", exclude_dirs := [".git", "__pycache__", "node_modules"],
    exclude_hidden := true, prefer_extension_over_glob := true,
    by_extension := [], by_glob := [], by_mime := [],
    by_date := ⟨false, "By Date", "month"⟩, size_buckets := [],
    duplicates := ⟨"hardlink", "Dupes"⟩ }

/-- `dupRules` with the `skip` duplicate policy instead. -/
def skipRules : Rules := { dupRules with duplicates := ⟨"skip", "Duplicates"⟩ }

/-- A source tree holding `a.txt`, `b.txt`, `c.txt`. -/
def srcFS : FS := ⟨[["src"], ["src", "a.txt"], ["src", "b.txt"], ["src", "c.txt"]]⟩

/-- Walk result for a run over three byte-identical files (equal digests). -/
def tripleFiles : List FileInfo :=
  [⟨["src", "a.txt"], 5, ⟨2025, 1, 1⟩, "h"⟩,
   ⟨["src", "b.txt"], 5, ⟨2025, 1, 1⟩, "h"⟩,
   ⟨["src", "c.txt"], 5, ⟨2025, 1, 1⟩, "h"⟩]

/-- A MIME guesser and a glob matcher that never match anything. -/
def gmNone : Path → Option String := fun _ => none

/-- A glob matcher that matches no pattern. -/
def glmNone : String → Path → Bool := fun _ _ => false

/-- `dupRules` with two size buckets: zero-byte files and a catch-all. -/
def bucketRules : Rules :=
  { dupRules with size_buckets := [⟨some 0, some "Empty"⟩, ⟨none, some "Rest"⟩] }

/-- Value of a list of decimal digit characters (left-to-right). -/
def digitsVal (cs : List Char) : Nat :=
  cs.foldl (fun a c => 10 * a + (c.toNat - 48)) 0

theorem strApp_data (a b : String) : (a ++ b).data = a.data ++ b.data := rfl

theorem natDigitsAux_append (fuel : Nat) :
    ∀ n acc, natDigitsAux fuel n acc = natDigitsAux fuel n [] ++ acc := by
  induction fuel with
  | zero => intro n acc; simp [natDigitsAux]
  | succ fuel ih =>
    intro n acc
    simp only [natDigitsAux]
    by_cases h : n / 10 = 0
    · simp [h]
    · simp only [if_neg h]
      rw [ih (n / 10) (Char.ofNat (48 + n % 10) :: acc),
        ih (n / 10) (Char.ofNat (48 + n % 10) :: []), List.append_assoc]
      rfl

theorem digitsVal_append_singleton (xs : List Char) (c : Char) :
    digitsVal (xs ++ [c]) = 10 * digitsVal xs + (c.toNat - 48) := by
  simp [digitsVal, List.foldl_append]

theorem digitsVal_natDigitsAux :
    ∀ fuel n, n < fuel → digitsVal (natDigitsAux fuel n []) = n := by
  intro fuel
  induction fuel with
  | zero => intro n h; omega
  | succ fuel ih =>
    intro n h
    simp only [natDigitsAux]
    by_cases h0 : n / 10 = 0
    · have hn : n < 10 := (Nat.div_eq_zero_iff (by norm_num)).mp h0
      have hchar : ∀ k, k < 10 → (Char.ofNat (48 + k)).toNat = 48 + k := by decide
      simp only [if_pos h0]
      simp [digitsVal, hchar (n % 10) (Nat.mod_lt n (by norm_num))]
      omega
    · have hdiv : n / 10 < fuel := by
        have h1 : n / 10 < n := Nat.div_lt_self (by omega) (by norm_num)
        omega
      have hchar : ∀ k, k < 10 → (Char.ofNat (48 + k)).toNat = 48 + k := by decide
      simp only [if_neg h0]
      rw [natDigitsAux_append fuel (n / 10) [Char.ofNat (48 + n % 10)],
        digitsVal_append_singleton, ih (n / 10) hdiv,
        hchar (n % 10) (Nat.mod_lt n (by omega))]
      omega

theorem natToStr_inj {m n : Nat} (h : natToStr m = natToStr n) : m = n := by
  have hd : natDigitsAux (m + 1) m [] = natDigitsAux (n + 1) n [] :=
    congrArg String.data h
  have hv := congrArg digitsVal hd
  rwa [digitsVal_natDigitsAux (m + 1) m (Nat.lt_succ_self m),
    digitsVal_natDigitsAux (n + 1) n (Nat.lt_succ_self n)] at hv

theorem conflictName_inj (dst : Path) {i j : Nat}
    (h : conflictName dst i = conflictName dst j) : i = j := by
  unfold conflictName at h
  have h2 := List.append_cancel_left h
  have h3 : pyStem (pathName dst) ++ "(" ++ natToStr i ++ ")" ++ pySuffix (pathName dst) =
      pyStem (pathName dst) ++ "(" ++ natToStr j ++ ")" ++ pySuffix (pathName dst) := by
    simpa using h2
  have h4 := congrArg String.data h3
  simp only [strApp_data, List.append_assoc] at h4
  have h5 := List.append_cancel_left h4
  have h6 := List.append_cancel_left h5
  have h7 := List.append_cancel_right h6
  exact natToStr_inj (congrArg String.mk h7)

theorem conflict_free_exists (fs : FS) (dst : Path) :
    ∃ j, j < fs.ex.length + 1 ∧ fs.has (conflictName dst (1 + j)) = false := by
  by_contra hc
  push_neg at hc
  have hmem : ∀ j ∈ Finset.range (fs.ex.length + 1), conflictName dst (1 + j) ∈ fs.ex := by
    intro j hj
    have hne := hc j (Finset.mem_range.mp hj)
    have : fs.has (conflictName dst (1 + j)) = true := by
      cases hb : fs.has (conflictName dst (1 + j)) with
      | false => exact absurd hb hne
      | true => rfl
    simpa [FS.has] using this
  have hinj : Set.InjOn (fun j => conflictName dst (1 + j))
      (Finset.range (fs.ex.length + 1)) := by
    intro a _ b _ hab
    have := conflictName_inj dst hab
    omega
  have hsub : (Finset.range (fs.ex.length + 1)).image (fun j => conflictName dst (1 + j)) ⊆
      fs.ex.toFinset := by
    intro x hx
    rcases Finset.mem_image.mp hx with ⟨j, hj, rfl⟩
    exact List.mem_toFinset.mpr (hmem j hj)
  have h1 := Finset.card_le_card hsub
  rw [Finset.card_image_of_injOn hinj, Finset.card_range] at h1
  have h2 := fs.ex.toFinset_card_le
  omega

theorem findFree_spec (fs : FS) (dst : Path) :
    ∀ fuel i, (∃ j, j < fuel ∧ fs.has (conflictName dst (i + j)) = false) →
      fs.has (conflictName dst (findFree fs dst fuel i)) = false ∧
      i ≤ findFree fs dst fuel i ∧
      ∀ m, i ≤ m → m < findFree fs dst fuel i → fs.has (conflictName dst m) = true := by
  intro fuel
  induction fuel with
  | zero =>
    intro i hex
    obtain ⟨j, hj, _⟩ := hex
    omega
  | succ fuel ih =>
    intro i hex
    obtain ⟨j, hj, hfree⟩ := hex
    by_cases h : fs.has (conflictName dst i) = true
    · have hj' : ∃ j', j' < fuel ∧ fs.has (conflictName dst (i + 1 + j')) = false := by
        cases j with
        | zero =>
          rw [Nat.add_zero] at hfree
          rw [hfree] at h
          exact absurd h (by simp)
        | succ j =>
          exact ⟨j, by omega, by rw [show i + 1 + j = i + (j + 1) by omega]; exact hfree⟩
      obtain ⟨ha, hb, hc⟩ := ih (i + 1) hj'
      have heq : findFree fs dst (fuel + 1) i = findFree fs dst fuel (i + 1) := by
        simp [findFree, h]
      refine ⟨by rw [heq]; exact ha, by omega, ?_⟩
      intro m him hml
      rw [heq] at hml
      rcases Nat.eq_or_lt_of_le him with heqm | him'
      · rw [← heqm]; exact h
      · exact hc m him' hml
    · have heq : findFree fs dst (fuel + 1) i = i := by
        simp [findFree, h]
      refine ⟨?_, by omega, ?_⟩
      · rw [heq]
        cases hb : fs.has (conflictName dst i) with
        | false => rfl
        | true => exact absurd hb h
      · intro m him hml
        rw [heq] at hml
        omega

/-- C7: if no file exists at the candidate path, `next_nonconflicting_name`
returns it unchanged; the result is a function of the disk state alone
(stability: two calls against the same state agree); otherwise it returns
`parent/stem(n)suffix` for the smallest counter `n ≥ 1` whose name does not
exist; and once the path and its `(1)` candidate exist but `(2)` is free, a
further call returns the `(2)` candidate. -/
theorem next_nonconflicting_name_spec (fs : FS) (dst : Path) :
    (fs.has dst = false → next_nonconflicting_name fs dst = dst) ∧
    (∀ fs2 : FS, fs2.ex = fs.ex →
      next_nonconflicting_name fs2 dst = next_nonconflicting_name fs dst) ∧
    (fs.has dst = true → ∃ n, 1 ≤ n ∧
      next_nonconflicting_name fs dst = conflictName dst n ∧
      fs.has (conflictName dst n) = false ∧
      (∀ m, 1 ≤ m → m < n → fs.has (conflictName dst m) = true)) ∧
    (fs.has dst = true → fs.has (conflictName dst 1) = true →
      fs.has (conflictName dst 2) = false →
      next_nonconflicting_name fs dst = conflictName dst 2) := by
  have key : fs.has dst = true → ∃ n, 1 ≤ n ∧
      next_nonconflicting_name fs dst = conflictName dst n ∧
      fs.has (conflictName dst n) = false ∧
      (∀ m, 1 ≤ m → m < n → fs.has (conflictName dst m) = true) := by
    intro hdst
    obtain ⟨j, hj, hfree⟩ := conflict_free_exists fs dst
    obtain ⟨ha, hb, hc⟩ :=
      findFree_spec fs dst (fs.ex.length + 1) 1 ⟨j, hj, hfree⟩
    refine ⟨findFree fs dst (fs.ex.length + 1) 1, hb, ?_, ha, ?_⟩
    · simp [next_nonconflicting_name, hdst]
    · intro m h1m hmlt
      exact hc m h1m hmlt
  refine ⟨?_, ?_, key, ?_⟩
  · intro h
    simp [next_nonconflicting_name, h]
  · intro fs2 h2
    have : fs2 = fs := by cases fs2; cases fs; simpa using h2
    rw [this]
  · intro hdst h1 h2
    obtain ⟨n, hn1, heq, hnfree, hbelow⟩ := key hdst
    have hne1 : n ≠ 1 := by
      intro h
      rw [h] at hnfree
      rw [hnfree] at h1
      exact absurd h1 (by simp)
    have hle2 : ¬ 2 < n := by
      intro hgt
      have := hbelow 2 (by omega) hgt
      rw [this] at h2
      exact absurd h2 (by simp)
    have : n = 2 := by omega
    rw [heq, this]

/-- Witness for C7 at a concrete disk state: `d/a.txt` and `d/a(1).txt`
exist, so the namer returns `d/a(2).txt`. -/
theorem next_nonconflicting_name_spec_witness :
    next_nonconflicting_name ⟨[["d", "a.txt"], ["d", "a(1).txt"]]⟩ ["d", "a.txt"] =
      conflictName ["d", "a.txt"] 2 :=
  (next_nonconflicting_name_spec ⟨[["d", "a.txt"], ["d", "a(1).txt"]]⟩
    ["d", "a.txt"]).2.2.2 (by decide) (by decide) (by decide)

theorem find_first {α : Type} (q : α → Bool) (l1 l2 : List α) (a : α)
    (h1 : ∀ x ∈ l1, q x = false) (hq : q a = true) :
    (l1 ++ a :: l2).find? q = some a := by
  induction l1 with
  | nil => rw [List.nil_append]; exact List.find?_cons_of_pos _ hq
  | cons x xs ih =>
    have hx := h1 x (by simp)
    rw [List.cons_append, List.find?_cons_of_neg _ (by simp [hx])]
    exact ih (fun y hy => h1 y (by simp [hy]))

/-- C1: for every file, the computed destination equals destRoot joined,
outermost to innermost, with the matching size-bucket folder (when a bucket
matches), the date base folder and date segments (when the date rule is
enabled), the classification folder, and the original file name — for every
configuration whose matched folder names are non-empty strings (Python
falsiness makes an empty-string folder fall back); and on the spec's
scenario (`photo.jpg`, 2025-06-01 mtime, `.jpg → Images`, month grouping)
the destination is `dest/By Date/2025/06/Images/photo.jpg`. -/
theorem compute_destination_spec :
    (∀ (f : FileInfo) (destRoot : Path) (r : Rules) (gm : Path → Option String)
        (glm : String → Path → Bool),
      match_folder_for r gm glm f.path ≠ some "" →
      match_size_bucket r f.size ≠ some "" →
      compute_destination f destRoot r gm glm = specDestination f destRoot r gm glm) ∧
    compute_destination photoFile ["dest"] photoRules gmNone glmNone =
      ["dest", "By Date", "2025", "06", "Images", "photo.jpg"] := by
  constructor
  · intro f destRoot r gm glm hcf hsb
    simp only [compute_destination, specDestination, classification_folder]
    cases hmf : match_folder_for r gm glm f.path with
    | none =>
      cases hms : match_size_bucket r f.size with
      | none => by_cases hd : r.by_date.enabled <;> simp [hd]
      | some sb =>
        have hne : sb ≠ "" := by rintro rfl; exact hsb hms
        by_cases hd : r.by_date.enabled <;> simp [hd, hne]
    | some s =>
      have hne : s ≠ "" := by rintro rfl; exact hcf hmf
      cases hms : match_size_bucket r f.size with
      | none => by_cases hd : r.by_date.enabled <;> simp [hd, hne]
      | some sb =>
        have hne2 : sb ≠ "" := by rintro rfl; exact hsb hms
        by_cases hd : r.by_date.enabled <;> simp [hd, hne, hne2]
  · decide

/-- Witness for C1's universal part at the spec scenario's configuration. -/
theorem compute_destination_spec_witness :
    compute_destination photoFile ["dest"] photoRules gmNone glmNone =
      specDestination photoFile ["dest"] photoRules gmNone glmNone :=
  compute_destination_spec.1 photoFile ["dest"] photoRules gmNone glmNone
    (by decide) (by decide)

/-- C4: the classification folder is resolved by trying, in order and
stopping at the first match, (a) the lower-cased dotted extension in the
extension map, (b) each glob pattern in declared order, (c) each configured
MIME prefix in declared order against the guessed MIME type; when nothing
matches the resolver yields `none` and the unknown folder is used, so
classification is total. -/
theorem match_folder_for_spec (r : Rules) (gm : Path → Option String)
    (glm : String → Path → Bool) (p : Path) :
    (∀ folder, r.by_extension.lookup (strLower (pySuffix (pathName p))) = some folder →
      match_folder_for r gm glm p = some folder) ∧
    (∀ g1 pat fld g2, r.by_extension.lookup (strLower (pySuffix (pathName p))) = none →
      r.by_glob = g1 ++ (pat, fld) :: g2 → (∀ pr ∈ g1, glm pr.1 p = false) →
      glm pat p = true → match_folder_for r gm glm p = some fld) ∧
    (∀ m1 pre fld m2 mime, r.by_extension.lookup (strLower (pySuffix (pathName p))) = none →
      (∀ pr ∈ r.by_glob, glm pr.1 p = false) → gm p = some mime →
      r.by_mime = m1 ++ (pre, fld) :: m2 → (∀ pr ∈ m1, strLeads pr.1 mime = false) →
      strLeads pre mime = true → match_folder_for r gm glm p = some fld) ∧
    (r.by_extension.lookup (strLower (pySuffix (pathName p))) = none →
      (∀ pr ∈ r.by_glob, glm pr.1 p = false) →
      (∀ mime, gm p = some mime → ∀ pr ∈ r.by_mime, strLeads pr.1 mime = false) →
      match_folder_for r gm glm p = none) ∧
    (match_folder_for r gm glm p = none →
      classification_folder r gm glm p = r.unknown_folder) := by
  have hglobnone : (∀ pr ∈ r.by_glob, glm pr.1 p = false) →
      r.by_glob.find? (fun pr => glm pr.1 p) = none := by
    intro h
    rw [List.find?_eq_none]
    intro x hx
    simp [h x hx]
  refine ⟨?_, ?_, ?_, ?_, ?_⟩
  · intro folder hf
    unfold match_folder_for
    rw [hf]
  · intro g1 pat fld g2 hext hglob hskip hmatch
    unfold match_folder_for
    rw [hext, hglob, find_first _ g1 g2 (pat, fld) (fun x hx => by simpa using hskip x hx) hmatch]
  · intro m1 pre fld m2 mime hext hglob hgm hmime hskip hmatch
    unfold match_folder_for
    rw [hext, hglobnone hglob, hgm]
    simp only []
    rw [hmime,
      find_first _ m1 m2 (pre, fld) (fun x hx => by simpa using hskip x hx) hmatch]
  · intro hext hglob hmime
    unfold match_folder_for
    rw [hext, hglobnone hglob]
    cases hgm : gm p with
    | none => rfl
    | some mime =>
      simp only []
      rw [List.find?_eq_none.mpr (fun x hx => by simp [hmime mime hgm x hx])]
  · intro hnone
    unfold classification_folder
    rw [hnone]

/-- Witness for C4 at the photo scenario: the `.jpg` extension rule fires. -/
theorem match_folder_for_spec_witness :
    match_folder_for photoRules gmNone glmNone ["src", "photo.jpg"] = some "Images" :=
  (match_folder_for_spec photoRules gmNone glmNone ["src", "photo.jpg"]).1 "Images" (by decide)

theorem matchBucketGo_first (size : Nat) :
    ∀ (l1 : List Bucket) (b : Bucket) (l2 : List Bucket),
      (∀ b' ∈ l1, b'.folder = none ∨ bucketMatches b' size = false) →
      b.folder ≠ none → bucketMatches b size = true →
      matchBucketGo size (l1 ++ b :: l2) = b.folder := by
  intro l1
  induction l1 with
  | nil =>
    intro b l2 _ hf hm
    cases hfold : b.folder with
    | none => exact absurd hfold hf
    | some fld => simp [matchBucketGo, hfold, hm]
  | cons x xs ih =>
    intro b l2 h1 hf hm
    have hx := h1 x (by simp)
    have hrest := ih b l2 (fun y hy => h1 y (by simp [hy])) hf hm
    rw [List.cons_append]
    cases hxf : x.folder with
    | none => simp [matchBucketGo, hxf, hrest]
    | some fld =>
      rcases hx with hnone | hfalse
      · rw [hxf] at hnone; exact absurd hnone (by simp)
      · simp [matchBucketGo, hxf, hfalse, hrest]

/-- C9: a bucket with `max_mb = 0` matches exactly the zero-byte files; a
bucket with a numeric `max_mb` matches exactly the files whose size in
megabytes (bytes divided by 1048576) is at most `max_mb`; and buckets are
tried in declared order, the first bucket that carries a folder and matches
winning. -/
theorem match_size_bucket_spec :
    (∀ (size : Nat) (fld : Option String),
      bucketMatches ⟨some 0, fld⟩ size = true ↔ size = 0) ∧
    (∀ (size : Nat) (m : ℚ) (fld : Option String),
      bucketMatches ⟨some m, fld⟩ size = true ↔ (size : ℚ) / 1048576 ≤ m) ∧
    (∀ (r : Rules) (size : Nat) (l1 : List Bucket) (b : Bucket) (l2 : List Bucket),
      r.size_buckets = l1 ++ b :: l2 →
      (∀ b' ∈ l1, b'.folder = none ∨ bucketMatches b' size = false) →
      b.folder ≠ none → bucketMatches b size = true →
      match_size_bucket r size = b.folder) := by
  refine ⟨?_, ?_, ?_⟩
  · intro size fld
    simp only [bucketMatches, decide_eq_true_eq]
    rw [div_le_iff₀ (by norm_num : (0 : ℚ) < 1048576)]
    simp
  · intro size m fld
    simp [bucketMatches]
  · intro r size l1 b l2 hbuckets hskip hf hm
    unfold match_size_bucket
    rw [hbuckets]
    rw [if_neg (by simp)]
    exact matchBucketGo_first size l1 b l2 hskip hf hm

/-- Witness for C9 at a concrete configuration: the zero-byte bucket wins
for a zero-byte file. -/
theorem match_size_bucket_spec_witness :
    match_size_bucket bucketRules 0 = some "Empty" :=
  match_size_bucket_spec.2.2 bucketRules 0 [] ⟨some 0, some "Empty"⟩
    [⟨none, some "Rest"⟩] rfl (by simp) (by simp)
    (by simp [bucketMatches])

theorem segsLead_refl (l : List String) : segsLead l l = true := by
  induction l with
  | nil => rfl
  | cons a as ih => simp [segsLead, ih]

theorem undo_foldl_actions (l : List MoveResult) :
    ∀ st : FS × List MoveResult, (∀ rec ∈ st.2, rec.action = "undo") →
      ∀ rec ∈ (l.foldl undoStep st).2, rec.action = "undo" := by
  induction l with
  | nil => intro st h; simpa using h
  | cons x xs ih =>
    intro st h
    rw [List.foldl_cons]
    apply ih
    unfold undoStep
    by_cases hx : st.1.has x.dst = false
    · simp only [if_pos hx]; exact h
    · simp only [if_neg hx]
      intro rec hrec
      rcases List.mem_append.mp hrec with h1 | h2
      · exact h rec h1
      · have : rec = ⟨x.dst, next_nonconflicting_name (st.1.ensureDir (parentOf x.src)) x.src, "undo"⟩ := by
          simpa using h2
        rw [this]

/-- C5: `undo` raises a not-found error exactly when the manifest itself is
missing; with a manifest it always succeeds, replays the operations in
reverse (last-applied first), records an `undo` action for every file it
actually restored, and an operation whose recorded destination no longer
exists on disk is skipped (state unchanged) while processing continues. -/
theorem undo_spec (fs : FS) :
    (undo fs none = .error (.notFound "Undo manifest not found")) ∧
    (∀ ops : List MoveResult, ∃ t : FS × List MoveResult,
      undo fs (some ops) = .ok (t.2, t.1) ∧ ∀ rec ∈ t.2, rec.action = "undo") ∧
    (∀ (st : FS × List MoveResult) (rec : MoveResult),
      st.1.has rec.dst = false → undoStep st rec = st) ∧
    (∀ (l : List MoveResult) (rec : MoveResult),
      undo fs (some (l ++ [rec])) =
        .ok ((l.reverse.foldl undoStep (undoStep (fs, []) rec)).2,
          (l.reverse.foldl undoStep (undoStep (fs, []) rec)).1)) := by
  refine ⟨rfl, ?_, ?_, ?_⟩
  · intro ops
    exact ⟨ops.reverse.foldl undoStep (fs, []), rfl,
      undo_foldl_actions ops.reverse (fs, []) (by simp)⟩
  · intro st rec h
    simp [undoStep, h]
  · intro l rec
    simp [undo, List.reverse_append]

/-- Witness for C5's skip conjunct: the recorded destination `dest/a.txt`
does not exist, so the step leaves the state untouched. -/
theorem undo_spec_witness :
    undoStep (⟨[["src"]]⟩, []) ⟨["src", "a.txt"], ["dest", "a.txt"], "move"⟩ =
      (⟨[["src"]]⟩, []) :=
  (undo_spec ⟨[["src"]]⟩).2.2.1 (⟨[["src"]]⟩, [])
    ⟨["src", "a.txt"], ["dest", "a.txt"], "move"⟩ (by decide)

/-- C6: `organize` validates before touching anything: a missing source
directory raises the not-found error and a destination inside (or equal to)
the source raises the configuration error, in each case returning with the
filesystem exactly as it was, no results, and no manifest written. -/
theorem organize_validates (fs0 : FS) (src dest : Path) (r : Rules) (mode : String)
    (dryRun : Bool) (um : Option Path) (files : List FileInfo)
    (gm : Path → Option String) (glm : String → Path → Bool) (lk : Bool) :
    (fs0.has src = false →
      organize fs0 src dest r mode dryRun um files gm glm lk =
        (.error (.notFound "Source folder not found"), fs0)) ∧
    (fs0.has src = true → within_dir dest src = true →
      organize fs0 src dest r mode dryRun um files gm glm lk =
        (.error (.runtime "Destination directory cannot be inside the source directory."), fs0)) ∧
    (fs0.has src = true → dest = src →
      organize fs0 src dest r mode dryRun um files gm glm lk =
        (.error (.runtime "Destination directory cannot be inside the source directory."), fs0)) := by
  refine ⟨?_, ?_, ?_⟩
  · intro h
    simp [organize, h]
  · intro h1 h2
    simp [organize, h1, h2]
  · intro h1 h2
    subst h2
    simp [organize, h1, within_dir, segsLead_refl]

/-- Witness for C6: a missing source directory aborts with not-found and an
unchanged filesystem. -/
theorem organize_validates_witness :
    organize ⟨[]⟩ ["s"] ["d"] dupRules "move" false none [] gmNone glmNone true =
      (.error (.notFound "Source folder not found"), ⟨[]⟩) :=
  (organize_validates ⟨[]⟩ ["s"] ["d"] dupRules "move" false none [] gmNone
    glmNone true).1 (by decide)

/-- C10: a path is within itself (`within_dir p p` is true since
`relative_to` succeeds on equal resolved paths), so when destination equals
source the nested-inside-source check fires first and the dedicated
"Destination must differ from source." error is unreachable for every input. -/
theorem within_dir_self_eq_check_unreachable :
    (∀ p : Path, within_dir p p = true) ∧
    (∀ (fs0 : FS) (src dest : Path) (r : Rules) (mode : String) (dryRun : Bool)
        (um : Option Path) (files : List FileInfo) (gm : Path → Option String)
        (glm : String → Path → Bool) (lk : Bool),
      (organize fs0 src dest r mode dryRun um files gm glm lk).1 ≠
        .error (.runtime "Destination must differ from source.")) := by
  have hrefl : ∀ p : Path, within_dir p p = true := fun p => segsLead_refl p
  refine ⟨hrefl, ?_⟩
  intro fs0 src dest r mode dryRun um files gm glm lk
  unfold organize
  by_cases h1 : fs0.has src = false
  · simp [h1]
  · rw [if_neg h1]
    by_cases h2 : within_dir dest src = true
    · simp [h2]
    · have h3 : ¬ src = dest := by
        intro heq
        exact h2 (by rw [← heq]; exact hrefl src)
      simp only [Bool.not_eq_true] at h2
      rw [h2]
      simp only [Bool.false_eq_true, if_false, if_neg h3]
      cases um with
      | none => simp
      | some mp => by_cases hd : dryRun <;> simp [hd]

/-- Witness for C10 at concrete inputs: reflexivity of `within_dir` and an
organize run that cannot produce the must-differ error. -/
theorem within_dir_self_eq_check_unreachable_witness :
    within_dir ["a", "b"] ["a", "b"] = true ∧
    (organize srcFS ["src"] ["dest"] dupRules "move" false none [] gmNone
        glmNone true).1 ≠
      .error (.runtime "Destination must differ from source.") :=
  ⟨within_dir_self_eq_check_unreachable.1 ["a", "b"],
    within_dir_self_eq_check_unreachable.2 srcFS ["src"] ["dest"] dupRules
      "move" false none [] gmNone glmNone true⟩

theorem safe_link_or_copy_action (fs : FS) (src dst : Path) (mode : String) (lk : Bool) :
    (safe_link_or_copy fs src dst mode lk).1 = placementAction mode lk := by
  unfold safe_link_or_copy placementAction
  by_cases h1 : mode = "hardlink"
  · by_cases h2 : lk <;> simp [h1, h2]
  · by_cases h3 : mode = "copy" <;> simp [h1, h3]

/-- C2 evaluation at the failing input: three byte-identical files `a.txt`,
`b.txt`, `c.txt` under `duplicates.action = hardlink` with folder `Dupes`.
Because the per-file loop re-assigns `seen_hashes[file_hash] = f` for every
non-skipped file, the third duplicate is redirected to
`dest/Dupes/b.txt` — the name of the *second* file with that fingerprint —
where the claim (and the code's own comment) require the first file's name
`a.txt`. -/
theorem organize_hardlink_third_duplicate_eval :
    ((organize srcFS ["src"] ["dest"] dupRules "move" false none tripleFiles
        gmNone glmNone true).1.toOption.map (fun v => v.1.map MoveResult.dst)) =
      some [["dest", "Others", "a.txt"], ["dest", "Dupes", "a.txt"],
        ["dest", "Dupes", "b.txt"]] ∧
    ["dest", "Dupes", "b.txt"] ≠ ["dest", "Dupes", "a.txt"] := by
  constructor
  · rfl
  · decide

/-- C3 counterexample: a run over a single file (so no duplicate exists at
all) with requested mode `move` but `duplicates.action = hardlink` records a
`hardlink` action, not the caller-requested `move`. -/
theorem organize_mode_overridden_counterexample :
    ((organize srcFS ["src"] ["dest"] dupRules "move" false none
        [⟨["src", "a.txt"], 5, ⟨2025, 1, 1⟩, "ha"⟩] gmNone glmNone true).1.toOption.map
      (fun v => v.1.map MoveResult.action)) = some ["hardlink"] ∧
    ((organize srcFS ["src"] ["dest"] dupRules "move" false none
        [⟨["src", "a.txt"], 5, ⟨2025, 1, 1⟩, "ha"⟩] gmNone glmNone true).1.toOption.map
      (fun v => v.1.map MoveResult.action)) ≠ some ["move"] := by
  constructor
  · rfl
  · decide

/-- C3 amended: for a file whose fingerprint has not been seen in the run, a
non-dry-run step places it at the conflict-resolved computed destination and
records the action actually taken for the caller-requested mode — unless
`duplicatePolicy.action` is `hardlink`, in which case placement uses
hardlink mode (with copy fallback) even for first occurrences. -/
theorem processFile_first_occurrence (r : Rules) (destRoot : Path) (mode : String)
    (gm : Path → Option String) (glm : String → Path → Bool) (lk : Bool)
    (st : OrgState) (f : FileInfo) (h : st.seen.lookup f.hash = none) :
    (processFile r destRoot mode false gm glm lk st f).results =
      st.results ++ [⟨f.path,
        next_nonconflicting_name st.fs (compute_destination f destRoot r gm glm),
        placementAction (if r.duplicates.action = "hardlink" then "hardlink" else mode) lk⟩] ∧
    (r.duplicates.action ≠ "hardlink" →
      (processFile r destRoot mode false gm glm lk st f).results =
        st.results ++ [⟨f.path,
          next_nonconflicting_name st.fs (compute_destination f destRoot r gm glm),
          placementAction mode lk⟩]) := by
  have main : (processFile r destRoot mode false gm glm lk st f).results =
      st.results ++ [⟨f.path,
        next_nonconflicting_name st.fs (compute_destination f destRoot r gm glm),
        placementAction (if r.duplicates.action = "hardlink" then "hardlink" else mode) lk⟩] := by
    unfold processFile
    rw [h]
    unfold placeFile
    simp only [Bool.false_eq_true, if_false]
    rw [safe_link_or_copy_action]
  refine ⟨main, ?_⟩
  intro hne
  rw [main, if_neg hne]

/-- Witness for C3's amended statement at a concrete first-occurrence file. -/
theorem processFile_first_occurrence_witness :
    (processFile dupRules ["dest"] "move" false gmNone glmNone true
        ⟨srcFS, [], []⟩ ⟨["src", "a.txt"], 5, ⟨2025, 1, 1⟩, "ha"⟩).results =
      [⟨["src", "a.txt"], ["dest", "Others", "a.txt"], "hardlink"⟩] := by
  rw [(processFile_first_occurrence dupRules ["dest"] "move" gmNone glmNone true
    ⟨srcFS, [], []⟩ ⟨["src", "a.txt"], 5, ⟨2025, 1, 1⟩, "ha"⟩ rfl).1]
  decide

/-- C8 counterexample: a dry run under the `skip` duplicate policy over two
byte-identical files records a `skip-duplicate` result for the second file,
which is not a plan action matching the requested mode. -/
theorem organize_dry_run_skip_counterexample :
    ((organize srcFS ["src"] ["dest"] skipRules "move" true (some ["m.json"])
        (tripleFiles.take 2) gmNone glmNone true).1.toOption.map
      (fun v => (v.1.map MoveResult.action, v.2))) =
      some (["plan-move", "skip-duplicate"], none) ∧
    ("skip-duplicate" ∉ ["plan-move", "plan-copy", "plan-hardlink"]) := by
  constructor
  · rfl
  · decide

theorem processFile_dry (r : Rules) (destRoot : Path) (mode : String)
    (gm : Path → Option String) (glm : String → Path → Bool) (lk : Bool)
    (st : OrgState) (f : FileInfo) :
    (processFile r destRoot mode true gm glm lk st f).fs = st.fs ∧
    ∃ rec, (processFile r destRoot mode true gm glm lk st f).results = st.results ++ [rec] ∧
      (rec.action = planAction mode ∨ rec.action = "skip-duplicate") := by
  unfold processFile
  cases hl : st.seen.lookup f.hash with
  | none =>
    exact ⟨rfl, _, rfl, Or.inl rfl⟩
  | some firstP =>
    by_cases hskip : r.duplicates.action = "skip"
    · simp only [if_pos hskip]
      exact ⟨trivial, _, rfl, Or.inr rfl⟩
    · simp only [if_neg hskip]
      exact ⟨rfl, _, rfl, Or.inl rfl⟩

theorem organize_dry_foldl (r : Rules) (destRoot : Path) (mode : String)
    (gm : Path → Option String) (glm : String → Path → Bool) (lk : Bool)
    (files : List FileInfo) :
    ∀ st : OrgState,
      ((files.foldl (processFile r destRoot mode true gm glm lk) st).fs = st.fs) ∧
      (∀ rec ∈ (files.foldl (processFile r destRoot mode true gm glm lk) st).results,
        rec ∈ st.results ∨ rec.action = planAction mode ∨ rec.action = "skip-duplicate") := by
  induction files with
  | nil => intro st; exact ⟨rfl, fun rec h => Or.inl h⟩
  | cons f fl ih =>
    intro st
    rw [List.foldl_cons]
    obtain ⟨hfs, hres⟩ := ih (processFile r destRoot mode true gm glm lk st f)
    obtain ⟨hfs1, rec1, hres1, hact1⟩ := processFile_dry r destRoot mode gm glm lk st f
    refine ⟨by rw [hfs, hfs1], ?_⟩
    intro rec hmem
    rcases hres rec hmem with h1 | h2
    · rw [hres1] at h1
      rcases List.mem_append.mp h1 with ha | hb
      · exact Or.inl ha
      · have : rec = rec1 := by simpa using hb
        rw [this]
        exact Or.inr hact1
    · exact Or.inr h2

/-- C8 amended: with dryRun set, `organize` performs no filesystem mutation
(the final filesystem equals the initial one, also through validation
errors), writes no undo manifest, and every recorded result is either the
plan action matching the requested mode or a `skip-duplicate` record for a
repeated fingerprint under the `skip` duplicate policy. -/
theorem organize_dry_run_frame (fs0 : FS) (src dest : Path) (r : Rules)
    (mode : String) (um : Option Path) (files : List FileInfo)
    (gm : Path → Option String) (glm : String → Path → Bool) (lk : Bool) :
    (organize fs0 src dest r mode true um files gm glm lk).2 = fs0 ∧
    (∀ res mani,
      (organize fs0 src dest r mode true um files gm glm lk).1 = .ok (res, mani) →
      mani = none ∧
      ∀ rec ∈ res, rec.action = planAction mode ∨ rec.action = "skip-duplicate") := by
  obtain ⟨hfs, hres⟩ :=
    organize_dry_foldl r dest mode gm glm lk files ⟨fs0, [], []⟩
  unfold organize
  by_cases h1 : fs0.has src = false
  · simp [h1]
  · rw [if_neg h1]
    by_cases h2 : within_dir dest src = true
    · simp [h2]
    · simp only [Bool.not_eq_true] at h2
      rw [h2]
      simp only [Bool.false_eq_true, if_false]
      by_cases h3 : src = dest
      · simp [h3]
      · rw [if_neg h3]
        have hgoal : ∀ res mani,
            Except.ok ((files.foldl (processFile r dest mode true gm glm lk)
                ⟨fs0, [], []⟩).results, (none : Option (List MoveResult))) =
              (.ok (res, mani) :
                Except OrgError (List MoveResult × Option (List MoveResult))) →
            mani = none ∧
            ∀ rec ∈ res, rec.action = planAction mode ∨ rec.action = "skip-duplicate" := by
          intro res mani hok
          have hpair : (files.foldl (processFile r dest mode true gm glm lk)
              ⟨fs0, [], []⟩).results = res ∧ (none : Option (List MoveResult)) = mani := by
            simpa using hok
          obtain ⟨hr, hm⟩ := hpair
          refine ⟨hm.symm, ?_⟩
          intro rec hmem
          rw [← hr] at hmem
          rcases hres rec hmem with ha | hb
          · simp at ha
          · exact hb
        cases um with
        | none => exact ⟨hfs, hgoal⟩
        | some mp =>
          simp only [if_pos rfl]
          exact ⟨hfs, hgoal⟩

/-- Witness for C8's amended statement: the dry run of the counterexample
scenario leaves the filesystem untouched, writes no manifest, and each of
its two records is a plan action or a skip-duplicate. -/
theorem organize_dry_run_frame_witness :
    (organize srcFS ["src"] ["dest"] skipRules "move" true (some ["m.json"])
      (tripleFiles.take 2) gmNone glmNone true).2 = srcFS ∧
    ((none : Option (List MoveResult)) = none ∧
      ∀ rec ∈ [(⟨["src", "a.txt"], ["dest", "Others", "a.txt"], "plan-move"⟩ : MoveResult),
          (⟨["src", "b.txt"], [], "skip-duplicate"⟩ : MoveResult)],
        rec.action = planAction "move" ∨ rec.action = "skip-duplicate") :=
  ⟨(organize_dry_run_frame srcFS ["src"] ["dest"] skipRules "move" (some ["m.json"])
      (tripleFiles.take 2) gmNone glmNone true).1,
    (organize_dry_run_frame srcFS ["src"] ["dest"] skipRules "move" (some ["m.json"])
      (tripleFiles.take 2) gmNone glmNone true).2
      [⟨["src", "a.txt"], ["dest", "Others", "a.txt"], "plan-move"⟩,
        ⟨["src", "b.txt"], [], "skip-duplicate"⟩] none rfl⟩

end Organizer

